import Mathlib

/-!
# Verification of the Gated PixelCNN notebook

Shallow embedding of the code in `src/01_Gated-PixelCNN_MNIST.ipynb`:
the masked convolution wrappers `VStack` and `HStack` (subclasses of
`gluon.nn.Conv2D` with shifted padding and a `slice_like` crop), the
`GatedLayer` block, the sequential network `net`, the training loss and
the image-completion loop.

Modelling conventions.
* A tensor in NCHW layout is modelled per batch element (every operation
  in the notebook acts identically and independently on each batch
  element), as `C` channels by `H` rows by `W` columns with a total
  `data` function; operations only ever read indices below the bounds.
* float32 arithmetic is idealised by an exact computable carrier (`ℤ`);
  the claims under study are dataflow, shape and dependence properties
  that hold for any choice of numeric carrier.  The framework-supplied
  nonlinearities `sigmoid` and `tanh` are abstract function parameters
  (`sg`, `th`); `relu` is `max · 0` as in the framework.
* Framework operations that raise on shape mismatch (`slice_like`,
  `split`, elementwise `+`/`*`, `concat`) are modelled in `Option`,
  returning `none` where MXNet would raise.
* `'A' is kernel_type` in the source compares interned one-character
  string literals, i.e. behaves as string equality on the values
  actually passed (`'A'`/`'B'`); it is modelled as equality on `KType`.
-/

/-- Scalar carrier for tensor entries (see the module comment). -/
abbrev Scalar : Type := ℤ

/-- A single image tensor in NCHW layout with the batch axis dropped:
`C` channels, `H` rows, `W` columns.  `data` is a total function; only
indices below the bounds are ever read by the operations below. -/
@[ext]
structure Tensor3 where
  C : ℕ
  H : ℕ
  W : ℕ
  data : ℕ → ℕ → ℕ → Scalar

/-- Convolution weights: output channel, input channel, kernel row,
kernel column. -/
abbrev WeightFn : Type := ℕ → ℕ → ℕ → ℕ → Scalar

/-- Convolution bias: output channel. -/
abbrev BiasFn : Type := ℕ → Scalar

/-- Reading the input of a convolution after zero padding by `ph` rows
above and below and `pw` columns left and right: position `(r, s)` of
the padded plane of channel `c`. -/
def padData (x : Tensor3) (ph pw c r s : ℕ) : Scalar :=
  if ph ≤ r ∧ r < x.H + ph ∧ pw ≤ s ∧ s < x.W + pw then
    x.data c (r - ph) (s - pw)
  else 0

/-- `gluon.nn.Conv2D` with stride `(1,1)`, dilation `(1,1)`, `groups=1`
and `use_bias=True` (the only configuration the notebook constructs):
kernel `kh × kw`, padding `(ph, pw)`, output size
`(H + 2*ph - kh + 1) × (W + 2*pw - kw + 1)`. -/
def conv2d (outC kh kw ph pw : ℕ) (w : WeightFn) (b : BiasFn) (x : Tensor3) : Tensor3 where
  C := outC
  H := x.H + 2 * ph + 1 - kh
  W := x.W + 2 * pw + 1 - kw
  data := fun o i j =>
    b o + ∑ c ∈ Finset.range x.C, ∑ a ∈ Finset.range kh, ∑ e ∈ Finset.range kw,
      w o c a e * padData x ph pw c (i + a) (j + e)

/-- The `kernel_type` constructor argument of `VStack`/`HStack`. -/
inductive KType where
  | A
  | B
deriving DecidableEq

/-- `F.slice_like(act, x, axes=[2,3])`: crop `act` to the spatial size
of `x` keeping the top-left corner; MXNet raises if `act` is smaller
than `x` on a sliced axis. -/
def sliceLike (act x : Tensor3) : Option Tensor3 :=
  if x.H ≤ act.H ∧ x.W ≤ act.W then some { act with H := x.H, W := x.W } else none

/-- `VStack`: `Conv2D` with kernel `(kh, kw)` and padding
`(kh if kernel_type is A else kh-1, kw//2)`, whose `hybrid_forward`
crops the convolution output back to the spatial size of `x`. -/
def VStack.hybrid_forward (channels kh kw : ℕ) (kernel_type : KType)
    (w : WeightFn) (b : BiasFn) (x : Tensor3) : Option Tensor3 :=
  sliceLike
    (conv2d channels kh kw (if kernel_type = KType.A then kh else kh - 1) (kw / 2) w b x) x

/-- The value `VStack.hybrid_forward` returns when the crop succeeds. -/
def VStack.core (channels kh kw : ℕ) (kernel_type : KType)
    (w : WeightFn) (b : BiasFn) (x : Tensor3) : Tensor3 :=
  { conv2d channels kh kw (if kernel_type = KType.A then kh else kh - 1) (kw / 2) w b x with
    H := x.H, W := x.W }

/-- `HStack`: `Conv2D` with kernel `(1, kernel_len)` and padding
`(0, kernel_len if kernel_type is A else kernel_len-1)`, whose
`hybrid_forward` crops the output back to the spatial size of `x`. -/
def HStack.hybrid_forward (channels kernel_len : ℕ) (kernel_type : KType)
    (w : WeightFn) (b : BiasFn) (x : Tensor3) : Option Tensor3 :=
  sliceLike
    (conv2d channels 1 kernel_len 0
      (if kernel_type = KType.A then kernel_len else kernel_len - 1) w b x) x

/-- The value `HStack.hybrid_forward` returns when the crop succeeds. -/
def HStack.core (channels kernel_len : ℕ) (kernel_type : KType)
    (w : WeightFn) (b : BiasFn) (x : Tensor3) : Tensor3 :=
  { conv2d channels 1 kernel_len 0
      (if kernel_type = KType.A then kernel_len else kernel_len - 1) w b x with
    H := x.H, W := x.W }

/-- Which of the two masked convolution classes is meant. -/
inductive StackKind where
  | V
  | H
deriving DecidableEq

/-- Dispatch to `VStack.hybrid_forward` or `HStack.hybrid_forward`
(for `HStack`, `kw` is the `kernel_len` argument and `kh` is unused). -/
def stackForward (k : StackKind) (channels kh kw : ℕ) (kt : KType)
    (w : WeightFn) (b : BiasFn) (x : Tensor3) : Option Tensor3 :=
  match k with
  | StackKind.V => VStack.hybrid_forward channels kh kw kt w b x
  | StackKind.H => HStack.hybrid_forward channels kw kt w b x

/-- The corresponding total result. -/
def stackCore (k : StackKind) (channels kh kw : ℕ) (kt : KType)
    (w : WeightFn) (b : BiasFn) (x : Tensor3) : Tensor3 :=
  match k with
  | StackKind.V => VStack.core channels kh kw kt w b x
  | StackKind.H => HStack.core channels kw kt w b x

/-- Receptive-field region of the output position `(i, j)` for each
stack and kernel type: for `VStack` the rows strictly above `i`
(kernel type `A`), respectively the rows up to and including `i`
(kernel type `B`); for `HStack` the pixels of row `i` strictly left of
column `j` (type `A`), respectively up to and including column `j`
(type `B`). -/
def causalRegion (k : StackKind) (kt : KType) (i j r s : ℕ) : Prop :=
  match k, kt with
  | StackKind.V, KType.A => r < i
  | StackKind.V, KType.B => r ≤ i
  | StackKind.H, KType.A => r = i ∧ s < j
  | StackKind.H, KType.B => r = i ∧ s ≤ j

/-- Elementwise map (`F.sigmoid`, `F.tanh`, `relu`). -/
def mapT (f : Scalar → Scalar) (t : Tensor3) : Tensor3 :=
  { t with data := fun c r s => f (t.data c r s) }

/-- Elementwise addition, dimensions taken from the first argument. -/
def addCore (a b : Tensor3) : Tensor3 :=
  { a with data := fun c r s => a.data c r s + b.data c r s }

/-- Elementwise product, dimensions taken from the first argument. -/
def mulCore (a b : Tensor3) : Tensor3 :=
  { a with data := fun c r s => a.data c r s * b.data c r s }

/-- Channel-axis concatenation (`F.concat(a, b, dim=1)`), assuming
matching spatial sizes. -/
def concatCore (a b : Tensor3) : Tensor3 :=
  { a with
    C := a.C + b.C
    data := fun c r s => if c < a.C then a.data c r s else b.data (c - a.C) r s }

/-- `F.zeros` of shape `(C, H, W)`. -/
def zerosT (C H W : ℕ) : Tensor3 := ⟨C, H, W, fun _ _ _ => 0⟩

/-- Elementwise `+` on NDArrays; MXNet raises on a shape mismatch
(the broadcast cases never arise with the shapes the notebook uses). -/
def addT (a b : Tensor3) : Option Tensor3 :=
  if a.C = b.C ∧ a.H = b.H ∧ a.W = b.W then some (addCore a b) else none

/-- Elementwise `*` on NDArrays; MXNet raises on a shape mismatch. -/
def mulT (a b : Tensor3) : Option Tensor3 :=
  if a.C = b.C ∧ a.H = b.H ∧ a.W = b.W then some (mulCore a b) else none

/-- `F.concat(a, b, dim=1)`; MXNet raises if non-channel sizes differ. -/
def concatC (a b : Tensor3) : Option Tensor3 :=
  if a.H = b.H ∧ a.W = b.W then some (concatCore a b) else none

/-- First half of the channels of `x` (the `vx` of `F.split(x, axis=1,
num_outputs=2)`). -/
def vxOf (x : Tensor3) : Tensor3 := ⟨x.C / 2, x.H, x.W, x.data⟩

/-- Second half of the channels of `x` (the `hx` of `F.split`). -/
def hxOf (x : Tensor3) : Tensor3 :=
  ⟨x.C / 2, x.H, x.W, fun c r s => x.data (c + x.C / 2) r s⟩

/-- `F.split(x, axis=1, num_outputs=2)`; MXNet raises when the channel
count is not divisible by 2. -/
def splitC2 (x : Tensor3) : Option (Tensor3 × Tensor3) :=
  if x.C % 2 = 0 then some (vxOf x, hxOf x) else none

/-- The gated activation `sigmoid(first channel half) * tanh(second
channel half)` as applied in `GatedLayer.hybrid_forward`. -/
def gateCore (sg th : Scalar → Scalar) (t : Tensor3) : Tensor3 :=
  mulCore (mapT sg (vxOf t)) (mapT th (hxOf t))

/-- Parameters of one `GatedLayer`: the `channels`, `kernel_size`,
`kernel_type` and `residual` constructor arguments together with the
weights of its four convolution sublayers `vstack`, `hstack`, `vtoh`
and `htoh`. -/
structure GatedLayer where
  channels : ℕ
  kernel_h : ℕ
  kernel_w : ℕ
  kernel_type : KType
  residual : Bool
  vstack_w : WeightFn
  vstack_b : BiasFn
  hstack_w : WeightFn
  hstack_b : BiasFn
  vtoh_w : WeightFn
  vtoh_b : BiasFn
  htoh_w : WeightFn
  htoh_b : BiasFn

/-- The residual branch of `GatedLayer.hybrid_forward`:
`if not residual: preres` /
`elif hx.C < channels: preres + concat(hx, zeros)` /
`else: preres + hx`. -/
def residualStep (L : GatedLayer) (hstack_preres hx : Tensor3) : Option Tensor3 :=
  if L.residual = false then some hstack_preres
  else if hx.C < L.channels then
    (concatC hx (zerosT (L.channels - hx.C) hx.H hx.W)).bind fun padded =>
      addT hstack_preres padded
  else addT hstack_preres hx

/-- `GatedLayer.hybrid_forward`, following the source line by line:
split the input channels, run `vstack` and `hstack`, mix the vertical
stream into the horizontal one through `vtoh`, gate both streams,
apply `htoh`, optionally add the residual, and concatenate. -/
def GatedLayer.hybrid_forward (L : GatedLayer) (sg th : Scalar → Scalar)
    (x : Tensor3) : Option Tensor3 :=
  (splitC2 x).bind fun vh =>
  (VStack.hybrid_forward (L.channels * 2) L.kernel_h L.kernel_w L.kernel_type
      L.vstack_w L.vstack_b vh.1).bind fun vstack =>
  (HStack.hybrid_forward (L.channels * 2) L.kernel_w L.kernel_type
      L.hstack_w L.hstack_b vh.2).bind fun hconv =>
  (addT hconv (conv2d (L.channels * 2) 1 1 0 0 L.vtoh_w L.vtoh_b vstack)).bind fun hstack =>
  (splitC2 vstack).bind fun vpair =>
  (splitC2 hstack).bind fun hpair =>
  (mulT (mapT sg vpair.1) (mapT th vpair.2)).bind fun vstack_out =>
  (mulT (mapT sg hpair.1) (mapT th hpair.2)).bind fun hgate =>
  (residualStep L (conv2d L.channels 1 1 0 0 L.htoh_w L.htoh_b hgate) vh.2).bind
    fun hstack_out =>
  concatC vstack_out hstack_out

/-- The vertical-context convolution `vstack(vx)` of a `GatedLayer`. -/
def GatedLayer.vOf (L : GatedLayer) (x : Tensor3) : Tensor3 :=
  VStack.core (L.channels * 2) L.kernel_h L.kernel_w L.kernel_type
    L.vstack_w L.vstack_b (vxOf x)

/-- The horizontal stream `hstack(hx) + vtoh(vstack)` of a
`GatedLayer`. -/
def GatedLayer.hOf (L : GatedLayer) (x : Tensor3) : Tensor3 :=
  addCore
    (HStack.core (L.channels * 2) L.kernel_w L.kernel_type
      L.hstack_w L.hstack_b (hxOf x))
    (conv2d (L.channels * 2) 1 1 0 0 L.vtoh_w L.vtoh_b (L.vOf x))

/-- The gated vertical stream of a `GatedLayer`. -/
def GatedLayer.vOutOf (L : GatedLayer) (sg th : Scalar → Scalar) (x : Tensor3) : Tensor3 :=
  gateCore sg th (L.vOf x)

/-- `hstack_preres`: the second 1×1 convolution `htoh` applied to the
gated horizontal stream. -/
def GatedLayer.hPreresOf (L : GatedLayer) (sg th : Scalar → Scalar) (x : Tensor3) : Tensor3 :=
  conv2d L.channels 1 1 0 0 L.htoh_w L.htoh_b (gateCore sg th (L.hOf x))

/-- The residual augmentation, total form: no residual, zero-padded
residual, or plain residual, exactly as branched in the source. -/
def residualCore (L : GatedLayer) (hstack_preres hx : Tensor3) : Tensor3 :=
  if L.residual = false then hstack_preres
  else if hx.C < L.channels then
    addCore hstack_preres (concatCore hx (zerosT (L.channels - hx.C) hx.H hx.W))
  else addCore hstack_preres hx

/-- The spec's description of the gated block, as a total function:
split the input channels into a vertical half `vx` and a horizontal
half `hx`, compute the masked vertical-context convolution
`v = vstack(vx)`, form the horizontal stream `h = hstack(hx) + vtoh(v)`
with `vtoh` a 1×1 convolution, gate each stream as
`sigmoid(first channel half) * tanh(second channel half)`, apply the
second 1×1 convolution `htoh` to the gated horizontal stream, and
return the channel-wise concatenation of the gated vertical stream and
the (possibly residual-augmented) horizontal result. -/
def GatedLayer.specForward (L : GatedLayer) (sg th : Scalar → Scalar) (x : Tensor3) : Tensor3 :=
  concatCore (L.vOutOf sg th x) (residualCore L (L.hPreresOf sg th x) (hxOf x))

/-- `relu` activation of the final `Conv2D` of the network. -/
def reluT (t : Tensor3) : Tensor3 := mapT (fun v => max v 0) t

/-- The weights of one `GatedLayer` of the network. -/
structure GatedW where
  vw : WeightFn
  vb : BiasFn
  hw : WeightFn
  hb : BiasFn
  vhw : WeightFn
  vhb : BiasFn
  hhw : WeightFn
  hhb : BiasFn

/-- `GatedLayer(16, (5,5), kernel_type=kt, residual=False)` as added to
the sequential network, with the given weights. -/
def mkGated (kt : KType) (g : GatedW) : GatedLayer :=
  { channels := 16, kernel_h := 5, kernel_w := 5, kernel_type := kt, residual := false
    vstack_w := g.vw, vstack_b := g.vb, hstack_w := g.hw, hstack_b := g.hb
    vtoh_w := g.vhw, vtoh_b := g.vhb, htoh_w := g.hhw, htoh_b := g.hhb }

/-- Weights of the whole sequential network `net`: the leading
`Conv2D(8, (1,1))`, the six gated layers, and the trailing
`Conv2D(1, (1,1), activation='relu')`. -/
structure NetParams where
  w0 : WeightFn
  b0 : BiasFn
  g1 : GatedW
  g2 : GatedW
  g3 : GatedW
  g4 : GatedW
  g5 : GatedW
  g6 : GatedW
  wf : WeightFn
  bf : BiasFn

/-- The sequential network `net`: `Conv2D(8,(1,1))`, one `GatedLayer`
with `kernel_type='A'`, five with `kernel_type='B'` (all
`residual=False`), then `Conv2D(1,(1,1), activation='relu')`. -/
def net (p : NetParams) (sg th : Scalar → Scalar) (x : Tensor3) : Option Tensor3 :=
  ((mkGated KType.A p.g1).hybrid_forward sg th (conv2d 8 1 1 0 0 p.w0 p.b0 x)).bind fun t1 =>
  ((mkGated KType.B p.g2).hybrid_forward sg th t1).bind fun t2 =>
  ((mkGated KType.B p.g3).hybrid_forward sg th t2).bind fun t3 =>
  ((mkGated KType.B p.g4).hybrid_forward sg th t3).bind fun t4 =>
  ((mkGated KType.B p.g5).hybrid_forward sg th t4).bind fun t5 =>
  ((mkGated KType.B p.g6).hybrid_forward sg th t5).bind fun t6 =>
  some (reluT (conv2d 1 1 1 0 0 p.wf p.bf t6))

/-- The total value computed by `net` (each stage's guards succeed on
the shapes the network actually produces; see `net_eval`). -/
def netTotal (p : NetParams) (sg th : Scalar → Scalar) (x : Tensor3) : Tensor3 :=
  reluT (conv2d 1 1 1 0 0 p.wf p.bf
    ((mkGated KType.B p.g6).specForward sg th
      ((mkGated KType.B p.g5).specForward sg th
        ((mkGated KType.B p.g4).specForward sg th
          ((mkGated KType.B p.g3).specForward sg th
            ((mkGated KType.B p.g2).specForward sg th
              ((mkGated KType.A p.g1).specForward sg th
                (conv2d 8 1 1 0 0 p.w0 p.b0 x))))))))

/-- `net` as a plain function on buffers, as the completion loop calls
it (`net(reconst)`); on the buffers the loop feeds it the `Option`
always succeeds (`net_eval`). -/
def netD (p : NetParams) (sg th : Scalar → Scalar) (b : Tensor3) : Tensor3 :=
  (net p sg th b).getD b

/-- In-place update `buf[c0, i, j] = v` of one pixel of one channel. -/
def setPixel (t : Tensor3) (c0 i j : ℕ) (v : Scalar) : Tensor3 :=
  { t with data := fun c r s => if c = c0 ∧ r = i ∧ s = j then v else t.data c r s }

/-- One step of the completion loop:
`reconst[:,0,i,j] = net(reconst)[:,0,i,j]`. -/
def completeStep (f : Tensor3 → Tensor3) (i j : ℕ) (b : Tensor3) : Tensor3 :=
  setPixel b 0 i j ((f b).data 0 i j)

/-- The image-completion loop of the notebook:
`for i in range(14, 28): for j in range(28): ...` -/
def completion (f : Tensor3 → Tensor3) (reconst : Tensor3) : Tensor3 :=
  (List.range' 14 14).foldl
    (fun buf i => (List.range 28).foldl (fun buf2 j => completeStep f i j buf2) buf)
    reconst

/-- Spec-side description of the completion order: the positions of the
lower half listed row-major. -/
def rowMajorLower : List (ℕ × ℕ) :=
  (List.range' 14 14).flatMap fun i => (List.range 28).map fun j => (i, j)

/-- `net(x) - x`; MXNet raises on a shape mismatch. -/
def subT (a b : Tensor3) : Option Tensor3 :=
  if a.C = b.C ∧ a.H = b.H ∧ a.W = b.W then
    some { a with data := fun c r s => a.data c r s - b.data c r s }
  else none

/-- Elementwise `** n`. -/
def powT (t : Tensor3) (n : ℕ) : Tensor3 :=
  { t with data := fun c r s => t.data c r s ^ n }

/-- `mx.nd.sum(-, axis=[1,2,3])` for one batch element: sum over the
channel, row and column axes. -/
def sumCHW (t : Tensor3) : Scalar :=
  ∑ c ∈ Finset.range t.C, ∑ r ∈ Finset.range t.H, ∑ s ∈ Finset.range t.W, t.data c r s

/-- The per-image training loss of the notebook:
`mx.nd.sum((net(x) - x)**2, axis=[1,2,3])`. -/
def lossPerImage (p : NetParams) (sg th : Scalar → Scalar) (x : Tensor3) : Option Scalar :=
  (net p sg th x).bind fun y => (subT y x).map fun d => sumCHW (powT d 2)

/-- Two-run agreement of tensors on a region (read positions are always
within bounds, so agreement is only required there). -/
def agreeOn (x x' : Tensor3) (S : ℕ → ℕ → ℕ → Prop) : Prop :=
  ∀ c r s, c < x.C → r < x.H → s < x.W → S c r s → x.data c r s = x'.data c r s

/-- The two-stream invariant region carried through the gated layers:
the first `m` (vertical) channels are pinned on all rows up to `i`, the
remaining (horizontal) channels on rows above `i` and on row `i` up to
column `j`. -/
def vhRegion (m i j : ℕ) (c r s : ℕ) : Prop :=
  (c < m ∧ r ≤ i) ∨ (m ≤ c ∧ (r < i ∨ (r = i ∧ s ≤ j)))

/-- Agreement of two completion buffers on all pixels strictly before
position `(i, j)` in the generation order (all rows above `i`, and row
`i` left of column `j`), on channel 0, within the 28×28 bounds. -/
def agreeLow (b b' : Tensor3) (i j : ℕ) : Prop :=
  ∀ r s, r < 28 → s < 28 → (r < i ∨ (r = i ∧ s < j)) → b.data 0 r s = b'.data 0 r s

/- Concrete instances used by witnesses and counterexamples. -/

/-- All-ones convolution weights. -/
def oneW : WeightFn := fun _ _ _ _ => 1

/-- All-zero convolution weights. -/
def zeroW : WeightFn := fun _ _ _ _ => 0

/-- Zero bias. -/
def zeroB : BiasFn := fun _ => 0

/-- A zero 1×5×5 image. -/
def xZero55 : Tensor3 := ⟨1, 5, 5, fun _ _ _ => 0⟩

/-- A 1×5×5 image with a single 1 at row 4, column 3. -/
def xSpike55 : Tensor3 := ⟨1, 5, 5, fun c r s => if c = 0 ∧ r = 4 ∧ s = 3 then 1 else 0⟩

/-- Zero weights for one gated layer. -/
def gwZero : GatedW := ⟨zeroW, zeroB, zeroW, zeroB, zeroW, zeroB, zeroW, zeroB⟩

/-- Zero weights for the whole network. -/
def pZero : NetParams := ⟨zeroW, zeroB, gwZero, gwZero, gwZero, gwZero, gwZero, gwZero, zeroW, zeroB⟩

/-- A tiny gated layer used by witnesses: 1 channel, 1×1 kernel,
type `A`, no residual, zero weights. -/
def glUnit : GatedLayer :=
  { channels := 1, kernel_h := 1, kernel_w := 1, kernel_type := KType.A, residual := false
    vstack_w := zeroW, vstack_b := zeroB, hstack_w := zeroW, hstack_b := zeroB
    vtoh_w := zeroW, vtoh_b := zeroB, htoh_w := zeroW, htoh_b := zeroB }

/-- A gated layer with `residual=True` and 2 output-half channels. -/
def glRes2 : GatedLayer :=
  { glUnit with channels := 2, residual := true }

/-- A gated layer with `residual=True`, 3 output-half channels and
kernel type `B`. -/
def glRes3 : GatedLayer :=
  { glUnit with channels := 3, residual := true, kernel_type := KType.B }

/-- A zero 2×1×1 input (vertical half and horizontal half have one
channel each). -/
def xTwo11 : Tensor3 := ⟨2, 1, 1, fun _ _ _ => 0⟩

/-- A 2×1×1 input whose horizontal half (channel 1) is 1. -/
def xTwo11h : Tensor3 := ⟨2, 1, 1, fun c _ _ => if c = 1 then 1 else 0⟩

/-- A zero 6×1×1 input (halves of 3 channels each). -/
def xSix11 : Tensor3 := ⟨6, 1, 1, fun _ _ _ => 0⟩

/-- A zero 8×1×1 input (halves of 4 channels each). -/
def xEight11 : Tensor3 := ⟨8, 1, 1, fun _ _ _ => 0⟩

/-- A zero 1×28×28 completion buffer. -/
def bZero28 : Tensor3 := ⟨1, 28, 28, fun _ _ _ => 0⟩

/-- A 1×28×28 buffer equal to `bZero28` on the upper half but with a 1
at row 20, column 5 of the lower half. -/
def bSpike28 : Tensor3 := ⟨1, 28, 28, fun c r s => if c = 0 ∧ r = 20 ∧ s = 5 then 1 else 0⟩

/-- A zero 1×1×1 image for the loss witness. -/
def xOne11 : Tensor3 := ⟨1, 1, 1, fun _ _ _ => 0⟩

/-! ## Basic lemmas about the convolution and the crop -/

/-- The output of `conv2d` at `(i, j)` reads the input only inside the
window `[i - ph, i - ph + kh) × [j - pw, j - pw + kw)` (within bounds):
two inputs of equal shape agreeing there give equal outputs at `(i, j)`
on every output channel. -/
theorem conv2d_data_congr (outC kh kw ph pw : ℕ) (w : WeightFn) (b : BiasFn)
    (x x' : Tensor3) (hC : x.C = x'.C) (hH : x.H = x'.H) (hW : x.W = x'.W) (i j : ℕ)
    (h : ∀ c r s, c < x.C → r < x.H → s < x.W →
      i ≤ r + ph → r + ph < i + kh → j ≤ s + pw → s + pw < j + kw →
      x.data c r s = x'.data c r s) (o : ℕ) :
    (conv2d outC kh kw ph pw w b x).data o i j =
      (conv2d outC kh kw ph pw w b x').data o i j := by
  simp only [conv2d]
  rw [← hC]
  congr 1
  refine Finset.sum_congr rfl fun c hc => Finset.sum_congr rfl fun a ha =>
    Finset.sum_congr rfl fun e he => ?_
  simp only [Finset.mem_range] at hc ha he
  have hpd : padData x ph pw c (i + a) (j + e) = padData x' ph pw c (i + a) (j + e) := by
    unfold padData
    rw [← hH, ← hW]
    split_ifs with hcond
    · exact h c (i + a - ph) (j + e - pw) hc (by omega) (by omega)
        (by omega) (by omega) (by omega) (by omega)
    · rfl
  rw [hpd]

/-- `slice_like` succeeds whenever the activation is at least as large
as the reference tensor on both spatial axes. -/
theorem sliceLike_eq (act x : Tensor3) (h1 : x.H ≤ act.H) (h2 : x.W ≤ act.W) :
    sliceLike act x = some { act with H := x.H, W := x.W } := by
  unfold sliceLike
  rw [if_pos ⟨h1, h2⟩]

/-- The `slice_like` crop in `VStack`/`HStack` always succeeds: with
the paddings these classes choose, the convolution output is at least
as large as the input on both spatial axes. -/
theorem stackForward_eq_core (k : StackKind) (channels kh kw : ℕ) (kt : KType)
    (w : WeightFn) (b : BiasFn) (x : Tensor3) :
    stackForward k channels kh kw kt w b x = some (stackCore k channels kh kw kt w b x) := by
  cases k with
  | V =>
    cases kt with
    | A =>
      refine sliceLike_eq _ _ ?_ ?_
      · show x.H ≤ x.H + 2 * kh + 1 - kh
        omega
      · show x.W ≤ x.W + 2 * (kw / 2) + 1 - kw
        omega
    | B =>
      refine sliceLike_eq _ _ ?_ ?_
      · show x.H ≤ x.H + 2 * (kh - 1) + 1 - kh
        omega
      · show x.W ≤ x.W + 2 * (kw / 2) + 1 - kw
        omega
  | H =>
    cases kt with
    | A =>
      refine sliceLike_eq _ _ ?_ ?_
      · show x.H ≤ x.H + 2 * 0 + 1 - 1
        omega
      · show x.W ≤ x.W + 2 * kw + 1 - kw
        omega
    | B =>
      refine sliceLike_eq _ _ ?_ ?_
      · show x.H ≤ x.H + 2 * 0 + 1 - 1
        omega
      · show x.W ≤ x.W + 2 * (kw - 1) + 1 - kw
        omega

/-! ## C1 and C2 -/

/-- C1 (amended): causal masking of the two stacks.  For every pair of
inputs of equal shape that agree on the `causalRegion` of `(i, j)`, the
output of the stack at `(i, j)` is unchanged on every output channel:
an `HStack` output at `(i, j)` reads only pixels of row `i` strictly
left of `j` (kernel type `A`), resp. up to and including `(i, j)`
(type `B`); a `VStack` output reads only rows strictly above `i` for
kernel type `A`, and only rows up to **and including** row `i` for
kernel type `B` (the amendment: with kernel type `B` the `VStack`
receptive field takes in row `i` across the kernel's horizontal span,
not only the position `(i, j)` itself — see `claim1_counterexample`). -/
theorem claim1_causal_masking (k : StackKind) (channels kh kw : ℕ) (kt : KType)
    (w : WeightFn) (b : BiasFn) (x x' : Tensor3)
    (hC : x.C = x'.C) (hH : x.H = x'.H) (hW : x.W = x'.W) (i j : ℕ)
    (hagree : ∀ c r s, c < x.C → r < x.H → s < x.W →
      causalRegion k kt i j r s → x.data c r s = x'.data c r s)
    (y y' : Tensor3)
    (hy : stackForward k channels kh kw kt w b x = some y)
    (hy' : stackForward k channels kh kw kt w b x' = some y')
    (o : ℕ) : y.data o i j = y'.data o i j := by
  rw [stackForward_eq_core] at hy hy'
  obtain rfl : stackCore k channels kh kw kt w b x = y := Option.some.inj hy
  obtain rfl : stackCore k channels kh kw kt w b x' = y' := Option.some.inj hy'
  cases k with
  | V =>
    cases kt with
    | A =>
      show (conv2d channels kh kw kh (kw / 2) w b x).data o i j =
        (conv2d channels kh kw kh (kw / 2) w b x').data o i j
      refine conv2d_data_congr _ _ _ _ _ _ _ _ _ hC hH hW i j
        (fun c r s hc hr hs h1 h2 h3 h4 => hagree c r s hc hr hs ?_) o
      show r < i
      omega
    | B =>
      show (conv2d channels kh kw (kh - 1) (kw / 2) w b x).data o i j =
        (conv2d channels kh kw (kh - 1) (kw / 2) w b x').data o i j
      refine conv2d_data_congr _ _ _ _ _ _ _ _ _ hC hH hW i j
        (fun c r s hc hr hs h1 h2 h3 h4 => hagree c r s hc hr hs ?_) o
      show r ≤ i
      omega
  | H =>
    cases kt with
    | A =>
      show (conv2d channels 1 kw 0 kw w b x).data o i j =
        (conv2d channels 1 kw 0 kw w b x').data o i j
      refine conv2d_data_congr _ _ _ _ _ _ _ _ _ hC hH hW i j
        (fun c r s hc hr hs h1 h2 h3 h4 => hagree c r s hc hr hs ?_) o
      show r = i ∧ s < j
      omega
    | B =>
      show (conv2d channels 1 kw 0 (kw - 1) w b x).data o i j =
        (conv2d channels 1 kw 0 (kw - 1) w b x').data o i j
      refine conv2d_data_congr _ _ _ _ _ _ _ _ _ hC hH hW i j
        (fun c r s hc hr hs h1 h2 h3 h4 => hagree c r s hc hr hs ?_) o
      show r = i ∧ s ≤ j
      omega

/-- Witness for C1: with a type-`A` `VStack` and a 5×5 kernel, the zero
image and the image with a spike at `(4, 3)` agree on all rows above
row 4 (the `causalRegion` of `(4, 2)`), and the outputs at `(4, 2)`
coincide. -/
theorem claim1_witness :
    (∀ c, c < xZero55.C → ∀ r, r < xZero55.H → ∀ s, s < xZero55.W →
      r < 4 → xZero55.data c r s = xSpike55.data c r s)
    ∧ (stackCore StackKind.V 1 5 5 KType.A oneW zeroB xZero55).data 0 4 2 =
        (stackCore StackKind.V 1 5 5 KType.A oneW zeroB xSpike55).data 0 4 2 := by
  have hb : ∀ c, c < xZero55.C → ∀ r, r < xZero55.H → ∀ s, s < xZero55.W →
      r < 4 → xZero55.data c r s = xSpike55.data c r s := by decide
  refine ⟨hb, ?_⟩
  exact claim1_causal_masking StackKind.V 1 5 5 KType.A oneW zeroB xZero55 xSpike55
    rfl rfl rfl 4 2 (fun c r s hc hr hs hreg => hb c hc r hr s hs hreg) _ _
    (stackForward_eq_core StackKind.V 1 5 5 KType.A oneW zeroB xZero55)
    (stackForward_eq_core StackKind.V 1 5 5 KType.A oneW zeroB xSpike55) 0

/-- Counterexample to C1 as stated: for a `VStack` with
`kernel_type='B'` and kernel `(5,5)` (the configuration the network
uses), the zero image and the spike-at-`(4,3)` image agree on all rows
above row 4 **and** at the position `(4, 2)` itself — the whole region
the claim allows for a type-`B` `VStack` — yet the outputs at `(4, 2)`
differ: the type-`B` `VStack` also reads row 4 at columns other than
2 (here column 3, to the *right* of the output column). -/
theorem claim1_counterexample :
    (∀ c, c < xZero55.C → ∀ r, r < 4 → ∀ s, s < xZero55.W →
      xZero55.data c r s = xSpike55.data c r s)
    ∧ xZero55.data 0 4 2 = xSpike55.data 0 4 2
    ∧ VStack.hybrid_forward 1 5 5 KType.B oneW zeroB xZero55 =
        some (VStack.core 1 5 5 KType.B oneW zeroB xZero55)
    ∧ VStack.hybrid_forward 1 5 5 KType.B oneW zeroB xSpike55 =
        some (VStack.core 1 5 5 KType.B oneW zeroB xSpike55)
    ∧ (VStack.core 1 5 5 KType.B oneW zeroB xZero55).data 0 4 2 ≠
        (VStack.core 1 5 5 KType.B oneW zeroB xSpike55).data 0 4 2 :=
  ⟨by decide, by decide, rfl, rfl, by decide⟩

/-- C2: the forward pass of `VStack` and of `HStack` always returns a
tensor (the crop succeeds) whose height and width equal those of the
input `x`. -/
theorem claim2_output_cropping (k : StackKind) (channels kh kw : ℕ) (kt : KType)
    (w : WeightFn) (b : BiasFn) (x : Tensor3) :
    ∃ y, stackForward k channels kh kw kt w b x = some y ∧ y.H = x.H ∧ y.W = x.W := by
  refine ⟨stackCore k channels kh kw kt w b x,
    stackForward_eq_core k channels kh kw kt w b x, ?_, ?_⟩ <;> cases k <;> rfl

/-! ## Evaluating `GatedLayer.hybrid_forward` -/

/-- `VStack.hybrid_forward` always succeeds. -/
theorem VStack_forward_eq (channels kh kw : ℕ) (kt : KType) (w : WeightFn) (b : BiasFn)
    (x : Tensor3) :
    VStack.hybrid_forward channels kh kw kt w b x = some (VStack.core channels kh kw kt w b x) :=
  stackForward_eq_core StackKind.V channels kh kw kt w b x

/-- `HStack.hybrid_forward` always succeeds. -/
theorem HStack_forward_eq (channels klen : ℕ) (kt : KType) (w : WeightFn) (b : BiasFn)
    (x : Tensor3) :
    HStack.hybrid_forward channels klen kt w b x = some (HStack.core channels klen kt w b x) :=
  stackForward_eq_core StackKind.H channels 0 klen kt w b x

/-- `F.split` on an even channel count. -/
theorem splitC2_eq (x : Tensor3) (h : x.C % 2 = 0) : splitC2 x = some (vxOf x, hxOf x) := by
  unfold splitC2
  rw [if_pos h]

/-- Elementwise `+` on equal shapes. -/
theorem addT_eq (a b : Tensor3) (h1 : a.C = b.C) (h2 : a.H = b.H) (h3 : a.W = b.W) :
    addT a b = some (addCore a b) := by
  unfold addT
  rw [if_pos ⟨h1, h2, h3⟩]

/-- Elementwise `*` on equal shapes. -/
theorem mulT_eq (a b : Tensor3) (h1 : a.C = b.C) (h2 : a.H = b.H) (h3 : a.W = b.W) :
    mulT a b = some (mulCore a b) := by
  unfold mulT
  rw [if_pos ⟨h1, h2, h3⟩]

/-- Channel concatenation on equal spatial shapes. -/
theorem concatC_eq (a b : Tensor3) (h1 : a.H = b.H) (h2 : a.W = b.W) :
    concatC a b = some (concatCore a b) := by
  unfold concatC
  rw [if_pos ⟨h1, h2⟩]

/-- The residual augmentation keeps the channel count of `preres`. -/
theorem residualCore_C (L : GatedLayer) (p hx : Tensor3) : (residualCore L p hx).C = p.C := by
  unfold residualCore
  split_ifs <;> rfl

/-- The residual augmentation keeps the height of `preres`. -/
theorem residualCore_H (L : GatedLayer) (p hx : Tensor3) : (residualCore L p hx).H = p.H := by
  unfold residualCore
  split_ifs <;> rfl

/-- The residual augmentation keeps the width of `preres`. -/
theorem residualCore_W (L : GatedLayer) (p hx : Tensor3) : (residualCore L p hx).W = p.W := by
  unfold residualCore
  split_ifs <;> rfl

/-- The residual branch succeeds iff there is no residual or the
residual's channel count is at most the `channels` of the block
(`preres` is assumed to have the block's output channel count, as the
`htoh` convolution guarantees). -/
theorem residualStep_eq (L : GatedLayer) (p hx : Tensor3)
    (hpC : p.C = L.channels) (hpH : p.H = hx.H) (hpW : p.W = hx.W)
    (hres : L.residual = false ∨ hx.C ≤ L.channels) :
    residualStep L p hx = some (residualCore L p hx) := by
  unfold residualStep residualCore
  by_cases hf : L.residual = false
  · rw [if_pos hf, if_pos hf]
  · have hle : hx.C ≤ L.channels := by
      rcases hres with h | h
      · exact absurd h hf
      · exact h
    rw [if_neg hf, if_neg hf]
    by_cases hlt : hx.C < L.channels
    · rw [if_pos hlt, if_pos hlt]
      rw [concatC_eq _ _ (by rfl) (by rfl)]
      simp only [Option.some_bind]
      unfold addT
      rw [if_pos ⟨by show p.C = hx.C + (L.channels - hx.C); omega, hpH, hpW⟩]
    · rw [if_neg hlt, if_neg hlt]
      unfold addT
      rw [if_pos ⟨by omega, hpH, hpW⟩]

/-- `GatedLayer.hybrid_forward` succeeds and computes `specForward`
whenever the input channel count is even and either there is no
residual or the residual half fits into the block's output channels. -/
theorem gated_eval (L : GatedLayer) (sg th : Scalar → Scalar) (x : Tensor3)
    (hC2 : x.C % 2 = 0) (hres : L.residual = false ∨ x.C / 2 ≤ L.channels) :
    L.hybrid_forward sg th x = some (L.specForward sg th x) := by
  unfold GatedLayer.hybrid_forward
  rw [splitC2_eq x hC2]
  simp only [Option.some_bind]
  rw [VStack_forward_eq]
  simp only [Option.some_bind]
  rw [HStack_forward_eq]
  simp only [Option.some_bind]
  rw [addT_eq _ _ (by rfl) (by rfl) (by rfl)]
  simp only [Option.some_bind]
  rw [splitC2_eq _ (Nat.mul_mod_left L.channels 2)]
  simp only [Option.some_bind]
  rw [splitC2_eq _ (Nat.mul_mod_left L.channels 2)]
  simp only [Option.some_bind]
  rw [mulT_eq _ _ (by rfl) (by rfl) (by rfl)]
  simp only [Option.some_bind]
  rw [mulT_eq _ _ (by rfl) (by rfl) (by rfl)]
  simp only [Option.some_bind]
  rw [residualStep_eq _ _ _ (by rfl) (by rfl) (by rfl) hres]
  simp only [Option.some_bind]
  rw [concatC_eq _ _ (by rw [residualCore_H]; rfl) (by rw [residualCore_W]; rfl)]
  rfl

/-- The gated block's output channel count is `2 * channels`. -/
theorem specForward_C (L : GatedLayer) (sg th : Scalar → Scalar) (x : Tensor3) :
    (L.specForward sg th x).C = 2 * L.channels := by
  show (L.channels * 2) / 2 + (residualCore L (L.hPreresOf sg th x) (hxOf x)).C
    = 2 * L.channels
  rw [residualCore_C]
  show (L.channels * 2) / 2 + L.channels = 2 * L.channels
  omega

/-- The gated block preserves the height. -/
theorem specForward_H (L : GatedLayer) (sg th : Scalar → Scalar) (x : Tensor3) :
    (L.specForward sg th x).H = x.H := rfl

/-- The gated block preserves the width. -/
theorem specForward_W (L : GatedLayer) (sg th : Scalar → Scalar) (x : Tensor3) :
    (L.specForward sg th x).W = x.W := rfl

/-- The output channels of the gated vertical stream number
`channels`. -/
theorem vOutOf_C (L : GatedLayer) (sg th : Scalar → Scalar) (x : Tensor3) :
    (L.vOutOf sg th x).C = L.channels := by
  show L.channels * 2 / 2 = L.channels
  omega

/-- The gated block's output below channel `channels` is the gated
vertical stream. -/
theorem specForward_vchannel (L : GatedLayer) (sg th : Scalar → Scalar) (x : Tensor3)
    (c r s : ℕ) (hc : c < L.channels) :
    (L.specForward sg th x).data c r s
      = sg ((L.vOf x).data c r s) * th ((L.vOf x).data (c + L.channels) r s) := by
  have key : ∀ cc, (L.specForward sg th x).data cc r s =
      if cc < (L.vOutOf sg th x).C then (L.vOutOf sg th x).data cc r s
      else (residualCore L (L.hPreresOf sg th x) (hxOf x)).data (cc - (L.vOutOf sg th x).C) r s :=
    fun cc => rfl
  rw [key c, vOutOf_C, if_pos hc]
  show sg ((L.vOf x).data c r s) * th ((L.vOf x).data (c + (L.vOf x).C / 2) r s) = _
  have hv2 : (L.vOf x).C = L.channels * 2 := rfl
  rw [hv2, show L.channels * 2 / 2 = L.channels from by omega]

/-- The gated block's output at channel `channels + c` (for
`c < channels`) is the residual-augmented horizontal stream. -/
theorem specForward_hchannel (L : GatedLayer) (sg th : Scalar → Scalar) (x : Tensor3)
    (c r s : ℕ) :
    (L.specForward sg th x).data (L.channels + c) r s
      = (residualCore L (L.hPreresOf sg th x) (hxOf x)).data c r s := by
  have key : ∀ cc, (L.specForward sg th x).data cc r s =
      if cc < (L.vOutOf sg th x).C then (L.vOutOf sg th x).data cc r s
      else (residualCore L (L.hPreresOf sg th x) (hxOf x)).data (cc - (L.vOutOf sg th x).C) r s :=
    fun cc => rfl
  rw [key (L.channels + c), vOutOf_C, if_neg (by omega),
    show L.channels + c - L.channels = c from by omega]

/-! ## C3, C4, C9, C10 -/

/-- C3: for every input with an even channel count (and a residual that
fits, as in every configuration the notebook instantiates),
`GatedLayer.hybrid_forward` returns exactly the dataflow the spec
describes — split the channels into `vx`/`hx`, compute `v = vstack(vx)`
and `h = hstack(hx) + vtoh(v)`, gate each stream with
`sigmoid(first half) * tanh(second half)`, apply `htoh` to the gated
horizontal stream, and concatenate the gated vertical stream with the
(possibly residual-augmented) horizontal result (`specForward`). -/
theorem claim3_gated_dataflow (L : GatedLayer) (sg th : Scalar → Scalar) (x : Tensor3)
    (hC2 : x.C % 2 = 0) (hres : L.residual = false ∨ x.C / 2 ≤ L.channels) :
    L.hybrid_forward sg th x = some (L.specForward sg th x) :=
  gated_eval L sg th x hC2 hres

/-- Witness for C3 on a concrete layer and input. -/
theorem claim3_witness :
    xTwo11.C % 2 = 0 ∧
      glUnit.hybrid_forward id id xTwo11 = some (glUnit.specForward id id xTwo11) :=
  ⟨by decide, claim3_gated_dataflow glUnit id id xTwo11 (by decide) (Or.inl rfl)⟩

/-- C4 (amended): the residual handling of `GatedLayer`.  With
`residual=False` no residual is added; with `residual=True` and a
residual channel count **less than** the block's output channel count
the residual is zero-padded in the channel dimension before the add;
with equal counts it is added unchanged.  (The claim's "whenever the
counts differ" is amended to "whenever the residual count is less":
when it is greater the forward pass fails instead of padding — see
`claim4_counterexample`.) -/
theorem claim4_residual_zero_padding (L : GatedLayer) (sg th : Scalar → Scalar) (x : Tensor3)
    (hC2 : x.C % 2 = 0) (c r s : ℕ) (hc : c < L.channels) :
    (L.residual = false →
      ∀ y, L.hybrid_forward sg th x = some y →
        y.data (L.channels + c) r s = (L.hPreresOf sg th x).data c r s)
    ∧ (L.residual = true → x.C / 2 < L.channels →
      ∀ y, L.hybrid_forward sg th x = some y →
        y.data (L.channels + c) r s = (L.hPreresOf sg th x).data c r s
          + (if c < x.C / 2 then x.data (c + x.C / 2) r s else 0))
    ∧ (L.residual = true → x.C / 2 = L.channels →
      ∀ y, L.hybrid_forward sg th x = some y →
        y.data (L.channels + c) r s
          = (L.hPreresOf sg th x).data c r s + x.data (c + x.C / 2) r s) := by
  refine ⟨?_, ?_, ?_⟩
  · intro hf y hy
    rw [gated_eval L sg th x hC2 (Or.inl hf)] at hy
    obtain rfl : L.specForward sg th x = y := Option.some.inj hy
    rw [specForward_hchannel]
    unfold residualCore
    rw [if_pos hf]
  · intro ht hlt y hy
    rw [gated_eval L sg th x hC2 (Or.inr (le_of_lt hlt))] at hy
    obtain rfl : L.specForward sg th x = y := Option.some.inj hy
    rw [specForward_hchannel]
    unfold residualCore
    rw [if_neg (by simp [ht]), if_pos (show (hxOf x).C < L.channels from hlt)]
    rfl
  · intro ht heq y hy
    rw [gated_eval L sg th x hC2 (Or.inr (le_of_eq heq))] at hy
    obtain rfl : L.specForward sg th x = y := Option.some.inj hy
    rw [specForward_hchannel]
    unfold residualCore
    rw [if_neg (by simp [ht]), if_neg (show ¬ (hxOf x).C < L.channels from by
      show ¬ x.C / 2 < L.channels; omega)]
    rfl

/-- Witness for C4: a `residual=True` layer with 2 output-half channels
fed a 2-channel input (residual half of 1 channel, less than 2): the
claim's zero-padding case, evaluated through the theorem. -/
theorem claim4_witness :
    glRes2.residual = true ∧ xTwo11.C / 2 < glRes2.channels ∧
    ∀ y, glRes2.hybrid_forward id id xTwo11 = some y →
      y.data (glRes2.channels + 0) 0 0 = (glRes2.hPreresOf id id xTwo11).data 0 0 0
        + (if 0 < xTwo11.C / 2 then xTwo11.data (0 + xTwo11.C / 2) 0 0 else 0) :=
  ⟨rfl, by decide,
    (claim4_residual_zero_padding glRes2 id id xTwo11 (by decide) 0 0 0 (by decide)).2.1
      rfl (by decide)⟩

/-- Counterexample to C4 as stated: when the residual channel count
(here 3) exceeds the block's output channel count (here 2), the code
does **not** zero-pad the smaller side — the elementwise add is given
mismatched shapes and the forward pass fails, so there is no output in
which a zero-padded residual was added. -/
theorem claim4_counterexample :
    glRes2.residual = true ∧ xSix11.C / 2 ≠ glRes2.channels
    ∧ glRes2.hybrid_forward id id xSix11 = none :=
  ⟨rfl, by decide, rfl⟩

/-- C9 (amended): for every `GatedLayer` and every input of shape
`(2m, H, W)` with `m ≥ 1`, provided the layer has `residual=False`
(as all six stacked layers of the network do) or `m ≤ channels`, the
forward pass succeeds and the output has shape `(2*channels, H, W)`:
spatial size preserved, output channels `2*channels` regardless of the
input channel count. -/
theorem claim9_shape_invariant (L : GatedLayer) (sg th : Scalar → Scalar) (x : Tensor3)
    (m : ℕ) (hm : x.C = 2 * m) (hm1 : 1 ≤ m)
    (hres : L.residual = false ∨ m ≤ L.channels) :
    ∃ y, L.hybrid_forward sg th x = some y
      ∧ y.C = 2 * L.channels ∧ y.H = x.H ∧ y.W = x.W := by
  have hC2 : x.C % 2 = 0 := by omega
  have hres' : L.residual = false ∨ x.C / 2 ≤ L.channels := by
    rcases hres with h | h
    · exact Or.inl h
    · exact Or.inr (by omega)
  exact ⟨L.specForward sg th x, gated_eval L sg th x hC2 hres',
    specForward_C L sg th x, specForward_H L sg th x, specForward_W L sg th x⟩

/-- Witness for C9 on a concrete layer and input. -/
theorem claim9_witness :
    xTwo11.C = 2 * 1 ∧ (1 : ℕ) ≤ 1 ∧
    ∃ y, glUnit.hybrid_forward id id xTwo11 = some y
      ∧ y.C = 2 * glUnit.channels ∧ y.H = xTwo11.H ∧ y.W = xTwo11.W :=
  ⟨rfl, le_refl 1,
    claim9_shape_invariant glUnit id id xTwo11 1 rfl (le_refl 1) (Or.inl rfl)⟩

/-- Counterexample to C9 as stated: a `GatedLayer` with
`residual=True`, `channels = 3`, on an input of shape `(2*4, 1, 1)`
(`m = 4 ≥ 1`) produces no output of shape `(2*channels, H, W)` — the
residual add gets mismatched channel counts (3 vs 4) and the forward
pass fails. -/
theorem claim9_counterexample :
    glRes3.residual = true ∧ xEight11.C = 2 * 4 ∧ (1 : ℕ) ≤ 4
    ∧ ¬ ∃ y, glRes3.hybrid_forward id id xEight11 = some y
        ∧ y.C = 2 * glRes3.channels ∧ y.H = xEight11.H ∧ y.W = xEight11.W := by
  refine ⟨rfl, rfl, by omega, ?_⟩
  rintro ⟨y, hy, -⟩
  rw [show glRes3.hybrid_forward id id xEight11 = none from rfl] at hy
  exact Option.noConfusion hy

/-- C10: one-way stream mixing.  For two inputs of equal shape that
agree on the vertical half of the channels (the first `C/2`), the
vertical halves of the outputs (the first `channels` output channels)
are identical everywhere — the vertical output stream depends only on
the vertical input half, never on the horizontal one. -/
theorem claim10_one_way_mixing (L : GatedLayer) (sg th : Scalar → Scalar) (x x' : Tensor3)
    (hC : x.C = x'.C) (hH : x.H = x'.H) (hW : x.W = x'.W)
    (hC2 : x.C % 2 = 0) (hres : L.residual = false ∨ x.C / 2 ≤ L.channels)
    (hag : ∀ c r s, c < x.C / 2 → r < x.H → s < x.W → x.data c r s = x'.data c r s) :
    ∃ y y', L.hybrid_forward sg th x = some y ∧ L.hybrid_forward sg th x' = some y'
      ∧ ∀ c r s, c < L.channels → y.data c r s = y'.data c r s := by
  have hC2' : x'.C % 2 = 0 := by omega
  have hres' : L.residual = false ∨ x'.C / 2 ≤ L.channels := by
    rcases hres with h | h
    · exact Or.inl h
    · exact Or.inr (by omega)
  refine ⟨_, _, gated_eval L sg th x hC2 hres, gated_eval L sg th x' hC2' hres', ?_⟩
  intro c r s hc
  rw [specForward_vchannel L sg th x c r s hc, specForward_vchannel L sg th x' c r s hc]
  have hv : ∀ o, (L.vOf x).data o r s = (L.vOf x').data o r s := by
    intro o
    exact conv2d_data_congr (L.channels * 2) L.kernel_h L.kernel_w
      (if L.kernel_type = KType.A then L.kernel_h else L.kernel_h - 1) (L.kernel_w / 2)
      L.vstack_w L.vstack_b (vxOf x) (vxOf x')
      (show x.C / 2 = x'.C / 2 by omega) hH hW r s
      (fun cc rr ss hcc hrr hss _ _ _ _ => hag cc rr ss hcc hrr hss) o
  rw [hv c, hv (c + L.channels)]

/-- Witness for C10: a concrete pair of inputs differing only in the
horizontal half has identical gated vertical output streams. -/
theorem claim10_witness :
    (∀ c, c < xTwo11.C / 2 → ∀ r, r < xTwo11.H → ∀ s, s < xTwo11.W →
      xTwo11.data c r s = xTwo11h.data c r s)
    ∧ ∃ y y', glUnit.hybrid_forward id id xTwo11 = some y
        ∧ glUnit.hybrid_forward id id xTwo11h = some y'
        ∧ ∀ c r s, c < glUnit.channels → y.data c r s = y'.data c r s := by
  have hb : ∀ c, c < xTwo11.C / 2 → ∀ r, r < xTwo11.H → ∀ s, s < xTwo11.W →
      xTwo11.data c r s = xTwo11h.data c r s := by decide
  exact ⟨hb, claim10_one_way_mixing glUnit id id xTwo11 xTwo11h rfl rfl rfl (by decide)
    (Or.inl rfl) (fun c r s hcc hrr hss => hb c hcc r hrr s hss)⟩

/-! ## C5 and C8: the completion loop -/

/-- Folding over a flattened list is the nested fold. -/
theorem foldl_flatMap_eq {α β γ : Type} (l : List α) (g : α → List β) (f : γ → β → γ)
    (init : γ) :
    (l.flatMap g).foldl f init = l.foldl (fun acc a => (g a).foldl f acc) init := by
  induction l generalizing init with
  | nil => rfl
  | cons a t ih =>
    simp only [List.flatMap_cons, List.foldl_append, List.foldl_cons]
    exact ih _

/-- C5: the completion procedure visits exactly the positions of the
lower half, rows 14–27, columns 0–27 within each row, in row-major
order, and at each one assigns `buffer[0,i,j] := net(buffer)[0,i,j]`
on the current partially updated buffer (`completeStep`). -/
theorem claim5_completion_order (f : Tensor3 → Tensor3) (reconst : Tensor3) :
    completion f reconst
      = rowMajorLower.foldl (fun buf p => completeStep f p.1 p.2 buf) reconst := by
  unfold completion rowMajorLower
  rw [foldl_flatMap_eq]
  simp only [List.foldl_map]

/-- The inner column loop of the completion preserves all bounds. -/
theorem foldl_inner_dims (f : Tensor3 → Tensor3) (i : ℕ) :
    ∀ (jl : List ℕ) (b : Tensor3),
      ((jl.foldl (fun b2 j => completeStep f i j b2) b).C = b.C)
      ∧ ((jl.foldl (fun b2 j => completeStep f i j b2) b).H = b.H)
      ∧ ((jl.foldl (fun b2 j => completeStep f i j b2) b).W = b.W) := by
  intro jl
  induction jl with
  | nil => exact fun b => ⟨rfl, rfl, rfl⟩
  | cons j t ih =>
    intro b
    simp only [List.foldl_cons]
    exact ih (completeStep f i j b)

/-- The completion loop preserves all bounds. -/
theorem foldl_outer_dims (f : Tensor3 → Tensor3) :
    ∀ (il : List ℕ) (b : Tensor3),
      ((il.foldl (fun buf i =>
          (List.range 28).foldl (fun b2 j => completeStep f i j b2) buf) b).C = b.C)
      ∧ ((il.foldl (fun buf i =>
          (List.range 28).foldl (fun b2 j => completeStep f i j b2) buf) b).H = b.H)
      ∧ ((il.foldl (fun buf i =>
          (List.range 28).foldl (fun b2 j => completeStep f i j b2) buf) b).W = b.W) := by
  intro il
  induction il with
  | nil => exact fun b => ⟨rfl, rfl, rfl⟩
  | cons i t ih =>
    intro b
    simp only [List.foldl_cons]
    refine ⟨(ih _).1.trans (foldl_inner_dims f i (List.range 28) b).1,
      (ih _).2.1.trans (foldl_inner_dims f i (List.range 28) b).2.1,
      (ih _).2.2.trans (foldl_inner_dims f i (List.range 28) b).2.2⟩

/-- The inner column loop writes only channel 0 of row `i`,
columns below 28. -/
theorem foldl_inner_frame (f : Tensor3 → Tensor3) (i : ℕ) (hi14 : 14 ≤ i) (hi28 : i < 28)
    (c r s : ℕ) (hout : c ≠ 0 ∨ r < 14 ∨ 28 ≤ r ∨ 28 ≤ s) :
    ∀ (jl : List ℕ), (∀ j ∈ jl, j < 28) → ∀ b,
      (jl.foldl (fun b2 j => completeStep f i j b2) b).data c r s = b.data c r s := by
  intro jl
  induction jl with
  | nil => exact fun _ b => rfl
  | cons j t ih =>
    intro hj b
    simp only [List.foldl_cons]
    rw [ih (fun u hu => hj u (List.mem_cons_of_mem _ hu)) (completeStep f i j b)]
    show (if c = 0 ∧ r = i ∧ s = j then (f b).data 0 i j else b.data c r s) = b.data c r s
    rw [if_neg (by
      rintro ⟨hc0, hri, hsj⟩
      have hjj : j < 28 := hj j (List.mem_cons_self j t)
      rcases hout with h | h | h | h <;> omega)]

/-- The completion loop writes only channel 0 of rows 14–27,
columns below 28. -/
theorem foldl_outer_frame (f : Tensor3 → Tensor3) (c r s : ℕ)
    (hout : c ≠ 0 ∨ r < 14 ∨ 28 ≤ r ∨ 28 ≤ s) :
    ∀ (il : List ℕ), (∀ i ∈ il, 14 ≤ i ∧ i < 28) → ∀ b,
      (il.foldl (fun buf i =>
        (List.range 28).foldl (fun b2 j => completeStep f i j b2) buf) b).data c r s
        = b.data c r s := by
  intro il
  induction il with
  | nil => exact fun _ b => rfl
  | cons i t ih =>
    intro hi b
    simp only [List.foldl_cons]
    rw [ih (fun u hu => hi u (List.mem_cons_of_mem _ hu))]
    exact foldl_inner_frame f i (hi i (List.mem_cons_self i t)).1
      (hi i (List.mem_cons_self i t)).2 c r s hout (List.range 28)
      (fun j hj => List.mem_range.mp hj) b

/-- C8: the completion loop modifies only channel 0 of rows 14–27
(and only columns below 28) of the buffer and keeps its shape; in
particular rows 0–13 — the upper half the buffer was initialised with —
are returned pixel for pixel unchanged. -/
theorem claim8_completion_frame (f : Tensor3 → Tensor3) (b : Tensor3) :
    (completion f b).C = b.C ∧ (completion f b).H = b.H ∧ (completion f b).W = b.W
    ∧ ∀ c r s, (c ≠ 0 ∨ r < 14 ∨ 28 ≤ r ∨ 28 ≤ s) →
        (completion f b).data c r s = b.data c r s := by
  refine ⟨(foldl_outer_dims f (List.range' 14 14) b).1,
    (foldl_outer_dims f (List.range' 14 14) b).2.1,
    (foldl_outer_dims f (List.range' 14 14) b).2.2, ?_⟩
  intro c r s hout
  exact foldl_outer_frame f c r s hout (List.range' 14 14) (by decide) b

/-- Witness for C8: the pixel `(1, 20, 5)` (a non-zero channel) is
outside the written region and survives the loop unchanged. -/
theorem claim8_witness :
    ((1 : ℕ) ≠ 0 ∨ (20 : ℕ) < 14 ∨ 28 ≤ (20 : ℕ) ∨ 28 ≤ (5 : ℕ))
    ∧ (completion id bZero28).data 1 20 5 = bZero28.data 1 20 5 :=
  ⟨Or.inl one_ne_zero,
    (claim8_completion_frame id bZero28).2.2.2 1 20 5 (Or.inl one_ne_zero)⟩

/-! ## C7: the training loss -/

/-- `net` always succeeds and computes `netTotal` (every stage's side
conditions hold by construction: the first convolution outputs 8
channels and every gated layer outputs 32). -/
theorem net_eval (p : NetParams) (sg th : Scalar → Scalar) (x : Tensor3) :
    net p sg th x = some (netTotal p sg th x) := by
  unfold net netTotal
  rw [gated_eval _ sg th _ (by show (8 : ℕ) % 2 = 0; decide) (Or.inl rfl)]
  simp only [Option.some_bind]
  rw [gated_eval _ sg th _ (by rw [specForward_C]; exact Nat.mul_mod_right 2 _) (Or.inl rfl)]
  simp only [Option.some_bind]
  rw [gated_eval _ sg th _ (by rw [specForward_C]; exact Nat.mul_mod_right 2 _) (Or.inl rfl)]
  simp only [Option.some_bind]
  rw [gated_eval _ sg th _ (by rw [specForward_C]; exact Nat.mul_mod_right 2 _) (Or.inl rfl)]
  simp only [Option.some_bind]
  rw [gated_eval _ sg th _ (by rw [specForward_C]; exact Nat.mul_mod_right 2 _) (Or.inl rfl)]
  simp only [Option.some_bind]
  rw [gated_eval _ sg th _ (by rw [specForward_C]; exact Nat.mul_mod_right 2 _) (Or.inl rfl)]
  simp only [Option.some_bind]

/-- The network's output has one channel. -/
theorem netTotal_C (p : NetParams) (sg th : Scalar → Scalar) (x : Tensor3) :
    (netTotal p sg th x).C = 1 := rfl

/-- The network preserves the height. -/
theorem netTotal_H (p : NetParams) (sg th : Scalar → Scalar) (x : Tensor3) :
    (netTotal p sg th x).H = x.H := rfl

/-- The network preserves the width. -/
theorem netTotal_W (p : NetParams) (sg th : Scalar → Scalar) (x : Tensor3) :
    (netTotal p sg th x).W = x.W := rfl

/-- C7: on a one-channel image (as every MNIST image is) the per-image
loss the training loop minimises is exactly the sum over every channel,
row and column of the squared difference between the network's output
and the input. -/
theorem claim7_training_loss (p : NetParams) (sg th : Scalar → Scalar) (x : Tensor3)
    (hC : x.C = 1) (y : Tensor3) (hy : net p sg th x = some y) :
    lossPerImage p sg th x = some (∑ c ∈ Finset.range x.C, ∑ r ∈ Finset.range x.H,
      ∑ s ∈ Finset.range x.W, (y.data c r s - x.data c r s) ^ 2) := by
  rw [net_eval] at hy
  obtain rfl : netTotal p sg th x = y := Option.some.inj hy
  unfold lossPerImage
  rw [net_eval]
  simp only [Option.some_bind]
  unfold subT
  rw [if_pos ⟨by rw [netTotal_C, hC], netTotal_H p sg th x, netTotal_W p sg th x⟩]
  simp only [Option.map_some']
  refine congrArg some ?_
  unfold sumCHW powT
  dsimp only
  rw [netTotal_C, netTotal_H, netTotal_W, hC]

/-- Witness for C7 on the zero network and a 1×1×1 image. -/
theorem claim7_witness :
    xOne11.C = 1 ∧ lossPerImage pZero id id xOne11
      = some (∑ c ∈ Finset.range xOne11.C, ∑ r ∈ Finset.range xOne11.H,
          ∑ s ∈ Finset.range xOne11.W,
          ((netTotal pZero id id xOne11).data c r s - xOne11.data c r s) ^ 2) :=
  ⟨rfl, claim7_training_loss pZero id id xOne11 rfl _ (net_eval pZero id id xOne11)⟩

/-! ## C6: the completion uses only the upper half

The key fact is the causal dependence structure of the network: the
vertical stream of each gated layer reads only rows up to the current
one of its vertical input, the horizontal stream reads only rows above
and the current row up to (type `B`) or strictly left of (type `A`)
the current column.  Chaining the layers (one type-`A` layer followed
by type-`B` layers) shows the network output at `(i, j)` depends only
on input pixels strictly before `(i, j)` in raster order. -/

/-- When `residual=False` the residual augmentation is the identity. -/
theorem residualCore_false (L : GatedLayer) (h : L.residual = false) (p hx : Tensor3) :
    residualCore L p hx = p := by
  unfold residualCore
  rw [if_pos h]

/-- A type-`A` `vstack(vx)` at `(r, s)` reads the vertical input half
only on rows strictly above `r`. -/
theorem vOf_congr_A (L : GatedLayer) (hkt : L.kernel_type = KType.A) (x x' : Tensor3)
    (hC : x.C = x'.C) (hH : x.H = x'.H) (hW : x.W = x'.W) (r s : ℕ)
    (hv : ∀ cc rr ss, cc < x.C / 2 → rr < x.H → ss < x.W → rr < r →
      x.data cc rr ss = x'.data cc rr ss)
    (o : ℕ) : (L.vOf x).data o r s = (L.vOf x').data o r s := by
  have key := conv2d_data_congr (L.channels * 2) L.kernel_h L.kernel_w
    (if L.kernel_type = KType.A then L.kernel_h else L.kernel_h - 1) (L.kernel_w / 2)
    L.vstack_w L.vstack_b (vxOf x) (vxOf x')
    (show x.C / 2 = x'.C / 2 from by omega) hH hW r s
    (fun cc rr ss hcc hrr hss h1 h2 h3 h4 => by
      have e : (if L.kernel_type = KType.A then L.kernel_h else L.kernel_h - 1)
          = L.kernel_h := by simp [hkt]
      rw [e] at h2
      exact hv cc rr ss hcc hrr hss (by omega)) o
  exact key

/-- A type-`B` `vstack(vx)` at `(r, s)` reads the vertical input half
only on rows up to and including `r`. -/
theorem vOf_congr_B (L : GatedLayer) (hkt : L.kernel_type = KType.B) (x x' : Tensor3)
    (hC : x.C = x'.C) (hH : x.H = x'.H) (hW : x.W = x'.W) (r s : ℕ)
    (hv : ∀ cc rr ss, cc < x.C / 2 → rr < x.H → ss < x.W → rr ≤ r →
      x.data cc rr ss = x'.data cc rr ss)
    (o : ℕ) : (L.vOf x).data o r s = (L.vOf x').data o r s := by
  have key := conv2d_data_congr (L.channels * 2) L.kernel_h L.kernel_w
    (if L.kernel_type = KType.A then L.kernel_h else L.kernel_h - 1) (L.kernel_w / 2)
    L.vstack_w L.vstack_b (vxOf x) (vxOf x')
    (show x.C / 2 = x'.C / 2 from by omega) hH hW r s
    (fun cc rr ss hcc hrr hss h1 h2 h3 h4 => by
      have e : (if L.kernel_type = KType.A then L.kernel_h else L.kernel_h - 1)
          = L.kernel_h - 1 := by simp [hkt]
      rw [e] at h2
      exact hv cc rr ss hcc hrr hss (by omega)) o
  exact key

/-- A type-`A` horizontal stream `hstack(hx) + vtoh(v)` at `(r, s)`
reads the vertical input half on rows strictly above `r` and the
horizontal input half on row `r` strictly left of column `s`. -/
theorem hOf_congr_A (L : GatedLayer) (hkt : L.kernel_type = KType.A) (x x' : Tensor3)
    (hC : x.C = x'.C) (hH : x.H = x'.H) (hW : x.W = x'.W) (r s : ℕ)
    (hv : ∀ cc rr ss, cc < x.C / 2 → rr < x.H → ss < x.W → rr < r →
      x.data cc rr ss = x'.data cc rr ss)
    (hh : ∀ cc rr ss, x.C / 2 ≤ cc → cc < x.C → rr < x.H → ss < x.W → rr = r → ss < s →
      x.data cc rr ss = x'.data cc rr ss)
    (o : ℕ) : (L.hOf x).data o r s = (L.hOf x').data o r s := by
  show (HStack.core (L.channels * 2) L.kernel_w L.kernel_type L.hstack_w L.hstack_b
      (hxOf x)).data o r s
    + (conv2d (L.channels * 2) 1 1 0 0 L.vtoh_w L.vtoh_b (L.vOf x)).data o r s
    = (HStack.core (L.channels * 2) L.kernel_w L.kernel_type L.hstack_w L.hstack_b
        (hxOf x')).data o r s
    + (conv2d (L.channels * 2) 1 1 0 0 L.vtoh_w L.vtoh_b (L.vOf x')).data o r s
  refine congrArg₂ (fun a b => a + b) ?_ ?_
  · exact conv2d_data_congr (L.channels * 2) 1 L.kernel_w 0
      (if L.kernel_type = KType.A then L.kernel_w else L.kernel_w - 1)
      L.hstack_w L.hstack_b (hxOf x) (hxOf x')
      (show x.C / 2 = x'.C / 2 from by omega) hH hW r s
      (fun cc rr ss hcc hrr hss h1 h2 h3 h4 => by
        have hcc' : cc < x.C / 2 := hcc
        have e : (if L.kernel_type = KType.A then L.kernel_w else L.kernel_w - 1)
            = L.kernel_w := by simp [hkt]
        rw [e] at h3 h4
        have hC2 : x.C / 2 = x'.C / 2 := by omega
        show x.data (cc + x.C / 2) rr ss = x'.data (cc + x'.C / 2) rr ss
        rw [← hC2]
        exact hh (cc + x.C / 2) rr ss (by omega) (by omega) hrr hss (by omega)
          (by omega)) o
  · exact conv2d_data_congr (L.channels * 2) 1 1 0 0 L.vtoh_w L.vtoh_b
      (L.vOf x) (L.vOf x') rfl hH hW r s
      (fun cc rr ss hcc hrr hss h1 h2 h3 h4 => by
        rw [show rr = r from by omega, show ss = s from by omega]
        exact vOf_congr_A L hkt x x' hC hH hW r s hv cc) o

/-- A type-`B` horizontal stream at `(r, s)` reads the vertical input
half on rows up to `r` and the horizontal input half on row `r` up to
and including column `s`. -/
theorem hOf_congr_B (L : GatedLayer) (hkt : L.kernel_type = KType.B) (x x' : Tensor3)
    (hC : x.C = x'.C) (hH : x.H = x'.H) (hW : x.W = x'.W) (r s : ℕ)
    (hv : ∀ cc rr ss, cc < x.C / 2 → rr < x.H → ss < x.W → rr ≤ r →
      x.data cc rr ss = x'.data cc rr ss)
    (hh : ∀ cc rr ss, x.C / 2 ≤ cc → cc < x.C → rr < x.H → ss < x.W → rr = r → ss ≤ s →
      x.data cc rr ss = x'.data cc rr ss)
    (o : ℕ) : (L.hOf x).data o r s = (L.hOf x').data o r s := by
  show (HStack.core (L.channels * 2) L.kernel_w L.kernel_type L.hstack_w L.hstack_b
      (hxOf x)).data o r s
    + (conv2d (L.channels * 2) 1 1 0 0 L.vtoh_w L.vtoh_b (L.vOf x)).data o r s
    = (HStack.core (L.channels * 2) L.kernel_w L.kernel_type L.hstack_w L.hstack_b
        (hxOf x')).data o r s
    + (conv2d (L.channels * 2) 1 1 0 0 L.vtoh_w L.vtoh_b (L.vOf x')).data o r s
  refine congrArg₂ (fun a b => a + b) ?_ ?_
  · exact conv2d_data_congr (L.channels * 2) 1 L.kernel_w 0
      (if L.kernel_type = KType.A then L.kernel_w else L.kernel_w - 1)
      L.hstack_w L.hstack_b (hxOf x) (hxOf x')
      (show x.C / 2 = x'.C / 2 from by omega) hH hW r s
      (fun cc rr ss hcc hrr hss h1 h2 h3 h4 => by
        have hcc' : cc < x.C / 2 := hcc
        have e : (if L.kernel_type = KType.A then L.kernel_w else L.kernel_w - 1)
            = L.kernel_w - 1 := by simp [hkt]
        rw [e] at h3 h4
        have hC2 : x.C / 2 = x'.C / 2 := by omega
        show x.data (cc + x.C / 2) rr ss = x'.data (cc + x'.C / 2) rr ss
        rw [← hC2]
        exact hh (cc + x.C / 2) rr ss (by omega) (by omega) hrr hss (by omega)
          (by omega)) o
  · exact conv2d_data_congr (L.channels * 2) 1 1 0 0 L.vtoh_w L.vtoh_b
      (L.vOf x) (L.vOf x') rfl hH hW r s
      (fun cc rr ss hcc hrr hss h1 h2 h3 h4 => by
        rw [show rr = r from by omega, show ss = s from by omega]
        exact vOf_congr_B L hkt x x' hC hH hW r s hv cc) o

/-- A type-`A` gated layer (no residual) maps agreement on the strict
raster-prior region of `(i, j)` to the two-stream invariant: vertical
output channels agree on rows up to `i`, horizontal output channels on
rows above `i` and on row `i` up to column `j` inclusive. -/
theorem gated_congr_A (L : GatedLayer) (hkt : L.kernel_type = KType.A)
    (hres : L.residual = false) (sg th : Scalar → Scalar) (z z' : Tensor3)
    (hC : z.C = z'.C) (hH : z.H = z'.H) (hW : z.W = z'.W) (i j : ℕ)
    (hag : ∀ c r s, c < z.C → r < z.H → s < z.W → (r < i ∨ (r = i ∧ s < j)) →
      z.data c r s = z'.data c r s) :
    ∀ c r s, vhRegion L.channels i j c r s →
      (L.specForward sg th z).data c r s = (L.specForward sg th z').data c r s := by
  intro c r s hreg
  rcases hreg with ⟨hc, hri⟩ | ⟨hc, hreg2⟩
  · rw [specForward_vchannel L sg th z c r s hc, specForward_vchannel L sg th z' c r s hc]
    have hv : ∀ o, (L.vOf z).data o r s = (L.vOf z').data o r s := by
      intro o
      refine vOf_congr_A L hkt z z' hC hH hW r s ?_ o
      intro cc rr ss hcc hrr hss hrow
      exact hag cc rr ss (by omega) hrr hss (Or.inl (by omega))
    rw [hv c, hv (c + L.channels)]
  · obtain ⟨d, rfl⟩ : ∃ d, c = L.channels + d := ⟨c - L.channels, by omega⟩
    rw [specForward_hchannel, specForward_hchannel, residualCore_false L hres,
      residualCore_false L hres]
    have hhof : ∀ o, (L.hOf z).data o r s = (L.hOf z').data o r s := by
      intro o
      refine hOf_congr_A L hkt z z' hC hH hW r s ?_ ?_ o
      · intro cc rr ss hcc hrr hss hrow
        refine hag cc rr ss (by omega) hrr hss (Or.inl ?_)
        rcases hreg2 with h | ⟨h1, h2⟩ <;> omega
      · intro cc rr ss hlo hhi hrr hss hrreq hsslt
        refine hag cc rr ss (by omega) hrr hss ?_
        rcases hreg2 with h | ⟨h1, h2⟩
        · exact Or.inl (by omega)
        · exact Or.inr ⟨by omega, by omega⟩
    exact conv2d_data_congr L.channels 1 1 0 0 L.htoh_w L.htoh_b
      (gateCore sg th (L.hOf z)) (gateCore sg th (L.hOf z')) rfl hH hW r s
      (fun cc rr ss hcc hrr hss h1 h2 h3 h4 => by
        rw [show rr = r from by omega, show ss = s from by omega]
        show sg ((L.hOf z).data cc r s) * th ((L.hOf z).data (cc + (L.hOf z).C / 2) r s)
          = sg ((L.hOf z').data cc r s) * th ((L.hOf z').data (cc + (L.hOf z').C / 2) r s)
        rw [hhof cc, hhof (cc + (L.hOf z).C / 2)]
        exact rfl) d

/-- A type-`B` gated layer (no residual) preserves the two-stream
invariant for the target `(i, j)`. -/
theorem gated_congr_B (L : GatedLayer) (hkt : L.kernel_type = KType.B)
    (hres : L.residual = false) (sg th : Scalar → Scalar) (z z' : Tensor3)
    (hzC : z.C = 2 * L.channels)
    (hC : z.C = z'.C) (hH : z.H = z'.H) (hW : z.W = z'.W) (i j : ℕ)
    (hag : ∀ c r s, c < z.C → r < z.H → s < z.W → vhRegion L.channels i j c r s →
      z.data c r s = z'.data c r s) :
    ∀ c r s, vhRegion L.channels i j c r s →
      (L.specForward sg th z).data c r s = (L.specForward sg th z').data c r s := by
  intro c r s hreg
  rcases hreg with ⟨hc, hri⟩ | ⟨hc, hreg2⟩
  · rw [specForward_vchannel L sg th z c r s hc, specForward_vchannel L sg th z' c r s hc]
    have hv : ∀ o, (L.vOf z).data o r s = (L.vOf z').data o r s := by
      intro o
      refine vOf_congr_B L hkt z z' hC hH hW r s ?_ o
      intro cc rr ss hcc hrr hss hrow
      exact hag cc rr ss (by omega) hrr hss (Or.inl ⟨by omega, by omega⟩)
    rw [hv c, hv (c + L.channels)]
  · obtain ⟨d, rfl⟩ : ∃ d, c = L.channels + d := ⟨c - L.channels, by omega⟩
    rw [specForward_hchannel, specForward_hchannel, residualCore_false L hres,
      residualCore_false L hres]
    have hhof : ∀ o, (L.hOf z).data o r s = (L.hOf z').data o r s := by
      intro o
      refine hOf_congr_B L hkt z z' hC hH hW r s ?_ ?_ o
      · intro cc rr ss hcc hrr hss hrow
        refine hag cc rr ss (by omega) hrr hss (Or.inl ⟨by omega, ?_⟩)
        rcases hreg2 with h | ⟨h1, h2⟩ <;> omega
      · intro cc rr ss hlo hhi hrr hss hrreq hssle
        refine hag cc rr ss (by omega) hrr hss (Or.inr ⟨by omega, ?_⟩)
        rcases hreg2 with h | ⟨h1, h2⟩
        · exact Or.inl (by omega)
        · exact Or.inr ⟨by omega, by omega⟩
    exact conv2d_data_congr L.channels 1 1 0 0 L.htoh_w L.htoh_b
      (gateCore sg th (L.hOf z)) (gateCore sg th (L.hOf z')) rfl hH hW r s
      (fun cc rr ss hcc hrr hss h1 h2 h3 h4 => by
        rw [show rr = r from by omega, show ss = s from by omega]
        show sg ((L.hOf z).data cc r s) * th ((L.hOf z).data (cc + (L.hOf z).C / 2) r s)
          = sg ((L.hOf z').data cc r s) * th ((L.hOf z').data (cc + (L.hOf z').C / 2) r s)
        rw [hhof cc, hhof (cc + (L.hOf z).C / 2)]
        exact rfl) d

/-- The output of one of the network's gated layers has 32 channels. -/
theorem specForward_mkGated_C (kt : KType) (g : GatedW) (sg th : Scalar → Scalar)
    (z : Tensor3) : ((mkGated kt g).specForward sg th z).C = 32 := by
  rw [specForward_C]
  show 2 * 16 = 32
  rfl

/-- `gated_congr_A` restated with (vacuous) output bounds so that the
network stages compose. -/
theorem gatedA_step (g : GatedW) (sg th : Scalar → Scalar) (u u' : Tensor3)
    (hC : u.C = u'.C) (hH : u.H = u'.H) (hW : u.W = u'.W) (i j : ℕ)
    (hag : ∀ c r s, c < u.C → r < u.H → s < u.W → (r < i ∨ (r = i ∧ s < j)) →
      u.data c r s = u'.data c r s) :
    ∀ c r s, c < ((mkGated KType.A g).specForward sg th u).C
      → r < ((mkGated KType.A g).specForward sg th u).H
      → s < ((mkGated KType.A g).specForward sg th u).W
      → vhRegion 16 i j c r s →
      ((mkGated KType.A g).specForward sg th u).data c r s
        = ((mkGated KType.A g).specForward sg th u').data c r s :=
  fun c r s _ _ _ hreg =>
    gated_congr_A (mkGated KType.A g) rfl rfl sg th u u' hC hH hW i j hag c r s hreg

/-- `gated_congr_B` restated with (vacuous) output bounds so that the
network stages compose. -/
theorem gatedB_step (g : GatedW) (sg th : Scalar → Scalar) (u u' : Tensor3)
    (hC : u.C = 32) (hC' : u'.C = 32) (hH : u.H = u'.H) (hW : u.W = u'.W) (i j : ℕ)
    (hag : ∀ c r s, c < u.C → r < u.H → s < u.W → vhRegion 16 i j c r s →
      u.data c r s = u'.data c r s) :
    ∀ c r s, c < ((mkGated KType.B g).specForward sg th u).C
      → r < ((mkGated KType.B g).specForward sg th u).H
      → s < ((mkGated KType.B g).specForward sg th u).W
      → vhRegion 16 i j c r s →
      ((mkGated KType.B g).specForward sg th u).data c r s
        = ((mkGated KType.B g).specForward sg th u').data c r s :=
  fun c r s _ _ _ hreg =>
    gated_congr_B (mkGated KType.B g) rfl rfl sg th u u' (show u.C = 2 * 16 from by omega)
      (by omega) hH hW i j hag c r s hreg

/-- Causality of the whole network: if two buffers of equal shape agree
on all pixels strictly before `(i, j)` in raster order (all rows above
`i`, and row `i` left of column `j`), then the network outputs agree at
`(i, j)` on every channel. -/
theorem netTotal_congr (p : NetParams) (sg th : Scalar → Scalar) (b b' : Tensor3)
    (hC : b.C = b'.C) (hH : b.H = b'.H) (hW : b.W = b'.W) (i j : ℕ)
    (hag : ∀ c r s, c < b.C → r < b.H → s < b.W → (r < i ∨ (r = i ∧ s < j)) →
      b.data c r s = b'.data c r s) :
    ∀ c, (netTotal p sg th b).data c i j = (netTotal p sg th b').data c i j := by
  have h0 : ∀ c r s, c < (conv2d 8 1 1 0 0 p.w0 p.b0 b).C
      → r < (conv2d 8 1 1 0 0 p.w0 p.b0 b).H → s < (conv2d 8 1 1 0 0 p.w0 p.b0 b).W
      → (r < i ∨ (r = i ∧ s < j)) →
      (conv2d 8 1 1 0 0 p.w0 p.b0 b).data c r s
        = (conv2d 8 1 1 0 0 p.w0 p.b0 b').data c r s := by
    intro c r s hc hr hs hreg
    exact conv2d_data_congr 8 1 1 0 0 p.w0 p.b0 b b' hC hH hW r s
      (fun cc rr ss hcc hrr hss h1 h2 h3 h4 => by
        have hrre : rr = r := by omega
        have hsse : ss = s := by omega
        rw [hrre, hsse]
        exact hag cc r s hcc (hrre ▸ hrr) (hsse ▸ hss) hreg) c
  have h1 := gatedA_step p.g1 sg th (conv2d 8 1 1 0 0 p.w0 p.b0 b)
    (conv2d 8 1 1 0 0 p.w0 p.b0 b') rfl hH hW i j h0
  have h2 := gatedB_step p.g2 sg th _ _
    (specForward_mkGated_C KType.A p.g1 sg th (conv2d 8 1 1 0 0 p.w0 p.b0 b))
    (specForward_mkGated_C KType.A p.g1 sg th (conv2d 8 1 1 0 0 p.w0 p.b0 b'))
    (by simp only [specForward_H]; exact hH) (by simp only [specForward_W]; exact hW) i j h1
  have h3 := gatedB_step p.g3 sg th _ _
    (specForward_mkGated_C KType.B p.g2 sg th _)
    (specForward_mkGated_C KType.B p.g2 sg th _)
    (by simp only [specForward_H]; exact hH) (by simp only [specForward_W]; exact hW) i j h2
  have h4 := gatedB_step p.g4 sg th _ _
    (specForward_mkGated_C KType.B p.g3 sg th _)
    (specForward_mkGated_C KType.B p.g3 sg th _)
    (by simp only [specForward_H]; exact hH) (by simp only [specForward_W]; exact hW) i j h3
  have h5 := gatedB_step p.g5 sg th _ _
    (specForward_mkGated_C KType.B p.g4 sg th _)
    (specForward_mkGated_C KType.B p.g4 sg th _)
    (by simp only [specForward_H]; exact hH) (by simp only [specForward_W]; exact hW) i j h4
  have h6 := gatedB_step p.g6 sg th _ _
    (specForward_mkGated_C KType.B p.g5 sg th _)
    (specForward_mkGated_C KType.B p.g5 sg th _)
    (by simp only [specForward_H]; exact hH) (by simp only [specForward_W]; exact hW) i j h5
  intro c
  exact congrArg (fun v => max v 0)
    (conv2d_data_congr 1 1 1 0 0 p.wf p.bf
      ((mkGated KType.B p.g6).specForward sg th ((mkGated KType.B p.g5).specForward sg th
        ((mkGated KType.B p.g4).specForward sg th ((mkGated KType.B p.g3).specForward sg th
          ((mkGated KType.B p.g2).specForward sg th ((mkGated KType.A p.g1).specForward sg th
            (conv2d 8 1 1 0 0 p.w0 p.b0 b)))))))
      ((mkGated KType.B p.g6).specForward sg th ((mkGated KType.B p.g5).specForward sg th
        ((mkGated KType.B p.g4).specForward sg th ((mkGated KType.B p.g3).specForward sg th
          ((mkGated KType.B p.g2).specForward sg th ((mkGated KType.A p.g1).specForward sg th
            (conv2d 8 1 1 0 0 p.w0 p.b0 b')))))))
      (by rw [specForward_mkGated_C, specForward_mkGated_C])
      (by simp only [specForward_H]; exact hH) (by simp only [specForward_W]; exact hW) i j
      (fun cc rr ss hcc hrr hss hh1 hh2 hh3 hh4 => by
        have hrre : rr = i := by omega
        have hsse : ss = j := by omega
        rw [hrre, hsse]
        refine h6 cc i j hcc (hrre ▸ hrr) (hsse ▸ hss) ?_
        by_cases h16 : cc < 16
        · exact Or.inl ⟨h16, le_refl i⟩
        · exact Or.inr ⟨by omega, Or.inr ⟨rfl, le_refl j⟩⟩) c)

/-- The completion loop's `net(reconst)` call always succeeds, so the
buffer-to-buffer function the loop uses is `netTotal`. -/
theorem netD_eq (p : NetParams) (sg th : Scalar → Scalar) (b : Tensor3) :
    netD p sg th b = netTotal p sg th b := by
  unfold netD
  rw [net_eval]
  rfl

/-- One completion step, pointwise. -/
theorem completeStep_data (f : Tensor3 → Tensor3) (i j : ℕ) (b : Tensor3) (c r s : ℕ) :
    (completeStep f i j b).data c r s
      = if c = 0 ∧ r = i ∧ s = j then (f b).data 0 i j else b.data c r s := rfl

/-- Invariant of the inner column loop at row `i`: two 1×28×28 buffers
agreeing on everything before `(i, 0)` in raster order still agree on
everything before `(i, n)` after the first `n` column steps — the
network reads only already-agreeing pixels at each step. -/
theorem inner_invariant (p : NetParams) (sg th : Scalar → Scalar) (i : ℕ) :
    ∀ (n : ℕ) (b b' : Tensor3), b.C = 1 → b'.C = 1 → b.H = 28 → b'.H = 28 →
      b.W = 28 → b'.W = 28 → agreeLow b b' i 0 →
      agreeLow ((List.range n).foldl (fun b2 j => completeStep (netD p sg th) i j b2) b)
        ((List.range n).foldl (fun b2 j => completeStep (netD p sg th) i j b2) b') i n := by
  intro n
  induction n with
  | zero => exact fun b b' _ _ _ _ _ _ hag => hag
  | succ n ih =>
    intro b b' hbC hb'C hbH hb'H hbW hb'W hag
    rw [List.range_succ]
    simp only [List.foldl_append, List.foldl_cons, List.foldl_nil]
    have hBn := ih b b' hbC hb'C hbH hb'H hbW hb'W hag
    have hdim := foldl_inner_dims (netD p sg th) i (List.range n) b
    have hdim' := foldl_inner_dims (netD p sg th) i (List.range n) b'
    intro r s hr hs hreg
    rw [completeStep_data, completeStep_data]
    by_cases hcase : (0 : ℕ) = 0 ∧ r = i ∧ s = n
    · rw [if_pos hcase, if_pos hcase, netD_eq, netD_eq]
      refine netTotal_congr p sg th _ _ ?_ ?_ ?_ i n ?_ 0
      · rw [hdim.1, hdim'.1, hbC, hb'C]
      · rw [hdim.2.1, hdim'.2.1, hbH, hb'H]
      · rw [hdim.2.2, hdim'.2.2, hbW, hb'W]
      · intro c rr ss hc hrr hss hreg2
        have hc1 : c < 1 := by rw [hdim.1, hbC] at hc; exact hc
        have hrr28 : rr < 28 := by rw [hdim.2.1, hbH] at hrr; exact hrr
        have hss28 : ss < 28 := by rw [hdim.2.2, hbW] at hss; exact hss
        obtain rfl : c = 0 := by omega
        exact hBn rr ss hrr28 hss28 hreg2
    · rw [if_neg hcase, if_neg hcase]
      refine hBn r s hr hs ?_
      rcases hreg with h | ⟨h1, h2⟩
      · exact Or.inl h
      · right
        refine ⟨h1, ?_⟩
        by_cases hsn : s = n
        · exact absurd ⟨rfl, h1, hsn⟩ hcase
        · omega

/-- Invariant of the outer row loop: buffers agreeing on everything
above row `start` agree on everything above row `start + m` after `m`
full row passes. -/
theorem outer_invariant (p : NetParams) (sg th : Scalar → Scalar) :
    ∀ (m start : ℕ) (b b' : Tensor3), b.C = 1 → b'.C = 1 → b.H = 28 → b'.H = 28 →
      b.W = 28 → b'.W = 28 → agreeLow b b' start 0 →
      agreeLow
        ((List.range' start m).foldl (fun buf i =>
          (List.range 28).foldl (fun b2 j => completeStep (netD p sg th) i j b2) buf) b)
        ((List.range' start m).foldl (fun buf i =>
          (List.range 28).foldl (fun b2 j => completeStep (netD p sg th) i j b2) buf) b')
        (start + m) 0 := by
  intro m
  induction m with
  | zero => exact fun start b b' _ _ _ _ _ _ hag => hag
  | succ m ih =>
    intro start b b' hbC hb'C hbH hb'H hbW hb'W hag
    rw [List.range'_succ]
    simp only [List.foldl_cons]
    have hrow := inner_invariant p sg th start 28 b b' hbC hb'C hbH hb'H hbW hb'W hag
    have hnext : agreeLow
        ((List.range 28).foldl (fun b2 j => completeStep (netD p sg th) start j b2) b)
        ((List.range 28).foldl (fun b2 j => completeStep (netD p sg th) start j b2) b')
        (start + 1) 0 := by
      intro r s hr hs hreg
      refine hrow r s hr hs ?_
      rcases hreg with h | ⟨h1, h2⟩
      · by_cases hrs : r < start
        · exact Or.inl hrs
        · exact Or.inr ⟨by omega, hs⟩
      · omega
    have hd := foldl_inner_dims (netD p sg th) start (List.range 28) b
    have hd' := foldl_inner_dims (netD p sg th) start (List.range 28) b'
    have key := ih (start + 1)
      ((List.range 28).foldl (fun b2 j => completeStep (netD p sg th) start j b2) b)
      ((List.range 28).foldl (fun b2 j => completeStep (netD p sg th) start j b2) b')
      (hd.1.trans hbC) (hd'.1.trans hb'C) (hd.2.1.trans hbH) (hd'.2.1.trans hb'H)
      (hd.2.2.trans hbW) (hd'.2.2.trans hb'W) hnext
    rw [show start + (m + 1) = (start + 1) + m from by omega]
    exact key

/-- C6: two-run noninterference of the completion.  For any two
1×28×28 buffers whose pixels agree on rows 0–13 (the upper half), the
completion loop — filling the lower half pixel by pixel with the
network's forward pass — produces identical lower halves: the completed
pixels are a function of the upper half and the weights alone. -/
theorem claim6_completion_upper_half (p : NetParams) (sg th : Scalar → Scalar)
    (b b' : Tensor3) (hbC : b.C = 1) (hb'C : b'.C = 1) (hbH : b.H = 28) (hb'H : b'.H = 28)
    (hbW : b.W = 28) (hb'W : b'.W = 28)
    (hup : ∀ r s, r < 14 → s < 28 → b.data 0 r s = b'.data 0 r s) :
    ∀ r s, 14 ≤ r → r < 28 → s < 28 →
      (completion (netD p sg th) b).data 0 r s
        = (completion (netD p sg th) b').data 0 r s := by
  have hag : agreeLow b b' 14 0 := by
    intro r s hr hs hreg
    rcases hreg with h | ⟨h1, h2⟩
    · exact hup r s h hs
    · omega
  have hfinal := outer_invariant p sg th 14 14 b b' hbC hb'C hbH hb'H hbW hb'W hag
  intro r s hr14 hr28 hs
  exact hfinal r s hr28 hs (Or.inl (by omega))

/-- Witness for C6: the all-zero buffer and a buffer with a spurious
spike in its lower half agree on the upper half, so the theorem forces
their completions to coincide at (20, 5). -/
theorem claim6_witness :
    (∀ r, r < 14 → ∀ s, s < 28 → bZero28.data 0 r s = bSpike28.data 0 r s)
    ∧ (completion (netD pZero id id) bZero28).data 0 20 5
        = (completion (netD pZero id id) bSpike28).data 0 20 5 := by
  have hb : ∀ r, r < 14 → ∀ s, s < 28 → bZero28.data 0 r s = bSpike28.data 0 r s := by
    decide
  exact ⟨hb, claim6_completion_upper_half pZero id id bZero28 bSpike28 rfl rfl rfl rfl rfl rfl
    (fun r s hr hs => hb r hr s hs) 20 5 (by omega) (by omega) (by omega)⟩
